import Mathlib

/-!
Shallow embedding of the deep_srl-br sources:
  * src/datasets/data_outputs.py -- settings persistence and experiment directory naming
  * src/models/agents.py         -- AgentMeta, SRLAgent (evaluate, fit, tensor shapes)
  * src/models/dblstm.py         -- DBLSTM (bidirectional LSTM stack, CRF cost)

Modelling conventions: a file system is the list of its existing paths, a
Python dict is an association list in insertion order, a Python float is a
rational, a numpy value is a tree of nested arrays over integers, and a raised
exception is the error branch of an Except value.  TensorFlow graph building
(dblstm.py prediction) is a symbolic expression tree, and external numeric
kernels that the repository only invokes (the CRF log-likelihood kernel, the
CoNLL evaluation script) are abstracted as function parameters.
-/

namespace DataOutputs

/-- The default variable names persisted by outputs_settings_persist
(SETTINGS, data_outputs.py lines 18-37). -/
def SETTINGS : List String :=
  [ "INPUT_PATH", "MODEL_NAME", "LAYER_1_NAME", "LAYER_2_NAME", "LAYER_3_NAME",
    "DATASET_TRAIN_SIZE", "DATASET_VALID_SIZE", "DATASET_TEST_SIZE", "lr", "reg",
    "HIDDEN_SIZE", "EMBEDDING_SIZE", "FEATURE_SIZE", "klass_size",
    "input_sequence_features", "BATCH_SIZE", "N_EPOCHS", "DISPLAY_STEP" ]

/-- outputs_settings_persist (data_outputs.py lines 40-61).  vars_dict is an
association list (a Python dict in insertion order); values are carried as the
strings str(value) would produce.  The function filters vars_dict by key
membership in to_persist and writes one line per kept pair.  It is pure on
vars_dict; the model returns (persisted_dict, (file_path, file_content)). -/
def outputs_settings_persist (output_dir : String)
    (vars_dict : List (String × String)) (to_persist : List String) :
    List (String × String) × (String × String) :=
  let settings_dict := vars_dict.filter (fun p => to_persist.contains p.1)
  let content := String.join (settings_dict.map (fun p => p.1 ++ ": " ++ p.2 ++ "\n"))
  (settings_dict, (output_dir ++ "settings.txt", content))

/-- Numeric value of one decimal digit character. -/
def digitVal (c : Char) : Nat := c.toNat - '0'.toNat

/-- Value of a decimal digit string, most significant digit first. -/
def digitsToNat (cs : List Char) : Nat := cs.foldl (fun acc c => 10 * acc + digitVal c) 0

/-- True when the string is a nonempty run of decimal digits. -/
def isDigitStr (s : String) : Bool := !s.toList.isEmpty && s.toList.all Char.isDigit

/-- Python int(s) on the strings that occur here (nonnegative digit runs);
anything else raises ValueError, modelled as none. -/
def pyInt? (s : String) : Option Nat :=
  if isDigitStr s then some (digitsToNat s.toList) else none

/-- Lexicographic comparison of character lists by code point, the order
Python uses on str. -/
def charListLe : List Char → List Char → Bool
  | [], _ => true
  | _ :: _, [] => false
  | a :: as, b :: bs =>
    if a.toNat < b.toNat then true
    else if a.toNat = b.toNat then charListLe as bs
    else false

/-- The first list is a prefix of the second. -/
def charPrefix : List Char → List Char → Bool
  | [], _ => true
  | _ :: _, [] => false
  | p :: ps, s :: ss => (p == s) && charPrefix ps ss

/-- The metacharacters of the Python re module: a character outside this list
stands for itself in a pattern. -/
def reMeta : List Char :=
  ['.', '^', '$', '*', '+', '?', '{', '}', '[', ']', '\\', '|', '(', ')']

/-- The string contains no re metacharacter, so as a pattern it denotes its
literal self. -/
def reLiteralStr (s : String) : Bool := s.toList.all (fun c => !(reMeta.contains c))

/-- The string contains no glob metacharacter (star, question mark, bracket),
so glob treats it literally. -/
def globLiteral (s : String) : Bool :=
  s.toList.all (fun c => !(c == '*') && !(c == '?') && !(c == '['))

/-- An atom of the modelled re fragment: a literal character or the dot. -/
inductive ReAtom where
  | lit (c : Char)
  | dot
deriving DecidableEq

/-- A quantifier of the modelled re fragment on a single atom. -/
inductive ReQuant where
  | one
  | star
  | plus
  | opt
deriving DecidableEq

/-- Parser for the modelled fragment of Python re patterns: sequences of atoms
(a literal character or the dot), each optionally followed by a greedy
quantifier star, plus or question mark.  Patterns using any other re syntax
(classes, groups, alternation, anchors, braces, escapes, or a quantifier with
nothing to repeat -- some of which re.compile itself rejects) are outside the
fragment: none. -/
def reParse : List Char → Option (List (ReAtom × ReQuant))
  | [] => some []
  | [c] =>
    if reMeta.contains c && !(c == '.') then none
    else some [(if c == '.' then ReAtom.dot else ReAtom.lit c, ReQuant.one)]
  | c :: q :: rest2 =>
    if reMeta.contains c && !(c == '.') then none
    else
      let atom := if c == '.' then ReAtom.dot else ReAtom.lit c
      if q == '*' then (reParse rest2).map (fun l => (atom, ReQuant.star) :: l)
      else if q == '+' then (reParse rest2).map (fun l => (atom, ReQuant.plus) :: l)
      else if q == '?' then (reParse rest2).map (fun l => (atom, ReQuant.opt) :: l)
      else (reParse (q :: rest2)).map (fun l => (atom, ReQuant.one) :: l)

/-- One atom against one character: a literal matches itself, the dot matches
anything but a newline. -/
def atomMatches : ReAtom → Char → Bool
  | ReAtom.lit c, d => c == d
  | ReAtom.dot, d => !(d == '\n')

/-- Backtracking match of an atom sequence against a prefix of s, in the
preference order of the re engine (greedy quantifiers try the longer
consumption first): the number of characters the preferred match consumes,
none when there is no match.  Every recursive call decreases
atoms + characters, so the fuel p.length + s.length + 1 passed by reMatchAt
never runs out. -/
def reMatchFuel : Nat → List (ReAtom × ReQuant) → List Char → Option Nat
  | 0, _, _ => none
  | _ + 1, [], _ => some 0
  | fuel + 1, (a, ReQuant.one) :: rest, s =>
    match s with
    | [] => none
    | c :: cs =>
      if atomMatches a c then (reMatchFuel fuel rest cs).map (· + 1) else none
  | fuel + 1, (a, ReQuant.opt) :: rest, s =>
    match s with
    | [] => reMatchFuel fuel rest []
    | c :: cs =>
      if atomMatches a c then
        match reMatchFuel fuel rest cs with
        | some n => some (n + 1)
        | none => reMatchFuel fuel rest s
      else reMatchFuel fuel rest s
  | fuel + 1, (a, ReQuant.plus) :: rest, s =>
    match s with
    | [] => none
    | c :: cs =>
      if atomMatches a c then
        (reMatchFuel fuel ((a, ReQuant.star) :: rest) cs).map (· + 1)
      else none
  | fuel + 1, (a, ReQuant.star) :: rest, s =>
    match s with
    | [] => reMatchFuel fuel rest []
    | c :: cs =>
      if atomMatches a c then
        match reMatchFuel fuel ((a, ReQuant.star) :: rest) cs with
        | some n => some (n + 1)
        | none => reMatchFuel fuel rest s
      else reMatchFuel fuel rest s

/-- Match of a parsed pattern at the start of s. -/
def reMatchAt (p : List (ReAtom × ReQuant)) (s : List Char) : Option Nat :=
  reMatchFuel (p.length + s.length + 1) p s

/-- The scan of re.sub with an empty replacement: at each position, remove the
leftmost preferred match when it is nonempty and continue after it, otherwise
keep the character and move on (with an empty replacement, a zero-width match
removes nothing, so Python's adjacent-empty-match rule cannot change the
output).  The input shrinks at every step, so the fuel s.length + 1 passed by
reSubAll never runs out. -/
def reSubFuel : Nat → List (ReAtom × ReQuant) → List Char → List Char
  | 0, _, s => s
  | fuel + 1, p, s =>
    match reMatchAt p s with
    | some (n + 1) => reSubFuel fuel p (s.drop (n + 1))
    | some 0 =>
      match s with
      | [] => []
      | c :: cs => c :: reSubFuel fuel p cs
    | none =>
      match s with
      | [] => []
      | c :: cs => c :: reSubFuel fuel p cs

/-- re.sub(pat, empty, s) (data_outputs.py line 119 uses experiment_dir as the
pattern): none when pat lies outside the modelled re fragment, otherwise the
string with every non-overlapping preferred match removed. -/
def reSubAll (pat s : String) : Option String :=
  (reParse pat.toList).map (fun p => String.mk (reSubFuel (s.toList.length + 1) p s.toList))

/-- Match of glob.glob(dir + [0-9]*) against one path for a dir free of glob
metacharacters (the literal case): the path extends dir by a first decimal
digit followed by any characters except the path separator (a glob star does
not cross a slash). -/
def globMatch (dir s : String) : Bool :=
  charPrefix dir.toList s.toList &&
    (match s.toList.drop dir.length with
     | [] => false
     | c :: cs => c.isDigit && cs.all (fun d => !(d == '/')))

/-- glob.glob(dir + [0-9]*) over the file system fs (the list of existing
paths), for a dir free of glob metacharacters; a dir using glob pattern
syntax is outside the model: none. -/
def glob? (fs : List String) (dir : String) : Option (List String) :=
  if globLiteral dir then some (fs.filter (globMatch dir)) else none

/-- The glob results in the literal case (the some branch of glob?). -/
def glob (fs : List String) (dir : String) : List String := fs.filter (globMatch dir)

/-- A Python call that either returns a value or raises. -/
inductive PyResult (α : Type) where
  | ok (val : α)
  | raise (msg : String)
deriving DecidableEq

/-- Insertion into a sorted list of strings under code-point order, the order
Python sorted uses on str. -/
def insertLe (x : String) : List String → List String
  | [] => [x]
  | y :: ys => if charListLe x.toList y.toList then x :: y :: ys else y :: insertLe x ys

/-- Python sorted on a list of strings. -/
def pySorted (l : List String) : List String := l.foldr insertLe []

/-- Python format {:02d} on a natural number: decimal digits zero-padded on
the left to width two. -/
def format02 (n : Nat) : String :=
  String.mk (List.replicate (2 - (Nat.repr n).length) '0') ++ Nat.repr n

/-- The experiment number chosen by _make_dir (data_outputs.py lines 115-119)
from the sorted glob results and the experiment_dir used as the re.sub
pattern: ok 00 when there is no existing entry; otherwise int() is applied to
the last sorted entry with every regex match of experiment_dir removed, and
raises ValueError when the remainder is not a number (as happens when the
regex fails to match the directory prefix); the successor is formatted
{:02d}.  none: the pattern lies outside the modelled re fragment. -/
def nextNN (experiment_ids : List String) (experiment_dir : String) :
    Option (PyResult String) :=
  if experiment_ids.length = 0 then some (PyResult.ok "00")
  else
    match experiment_ids.getLast? with
    | none => none
    | some last =>
      match reSubAll experiment_dir last with
      | none => none
      | some stripped =>
        match pyInt? stripped with
        | none => some (PyResult.raise "ValueError: invalid literal for int() with base 10")
        | some n => some (PyResult.ok (format02 (n + 1)))

/-- _make_dir (data_outputs.py lines 105-124) over the file system fs.
some (ok _): the produced experiment_dir together with the file system after
os.makedirs (the directory is added when it does not already exist);
some (raise _): the Python call raises; none: experiment_dir uses glob or re
pattern syntax outside the modelled fragments, so the model asserts
nothing. -/
def _make_dir (fs : List String) (pfx hparam_string : String) :
    Option (PyResult (String × List String)) :=
  let experiment_dir := pfx ++ "/" ++ hparam_string ++ "/"
  match glob? fs experiment_dir with
  | none => none
  | some matched =>
    match nextNN (pySorted matched) experiment_dir with
    | none => none
    | some (PyResult.raise e) => some (PyResult.raise e)
    | some (PyResult.ok nn) =>
      let d := experiment_dir ++ nn ++ "/"
      some (PyResult.ok (d, if fs.contains d then fs else fs ++ [d]))

/-- Python str on a list of ints. -/
def pyStrNatList (l : List Nat) : String :=
  "[" ++ String.intercalate ", " (l.map Nat.repr) ++ "]"

/-- _make_hparam_string (data_outputs.py lines 84-103).  Formatting the
learning rate with {:.2e} is binary floating-point behaviour and is abstracted
as the parameter fmtLr; everything else is exact string manipulation. -/
def _make_hparam_string (fmtLr : ℚ → String) (lr : ℚ) (hidden_sizes : List Nat)
    (ctx_p : Nat) (embeddings_id : String) : String :=
  let hs := (((pyStrNatList hidden_sizes).replace "[" "").replace "]" "").replace ", " "x"
  let hparam_string := "lr" ++ fmtLr lr ++ "_hs" ++ hs ++ "_ctx-p" ++ Nat.repr ctx_p
  if embeddings_id ≠ "" then hparam_string ++ "_" ++ embeddings_id else hparam_string

/-- dir_getoutputs (data_outputs.py lines 64-81). -/
def dir_getoutputs (fmtLr : ℚ → String) (fs : List String) (lr : ℚ)
    (hidden_sizes : List Nat) (ctx_p : Nat) (embeddings_id : String)
    (model_name : String) : Option (PyResult (String × List String)) :=
  let pfx := "outputs/" ++ model_name
  let hparam_string := _make_hparam_string fmtLr lr hidden_sizes ctx_p embeddings_id
  _make_dir fs pfx hparam_string

end DataOutputs

namespace Agents

/-- Python exceptions, distinguishing AttributeError (which SRLAgent.evaluate
handles) from every other kind. -/
inductive PyExc where
  | attributeError (msg : String)
  | other (msg : String)
deriving DecidableEq

/-- The required method names of AgentMeta.__new__ (agents.py line 49). -/
def agent_methods : List String := [ "evaluate", "fit", "load", "predict" ]

/-- The checking loop of AgentMeta.__new__: raise TypeError at the first
required method name missing from the class body. -/
def checkAgentMethods : List String → List String → Except String Unit
  | [], _ => Except.ok ()
  | am :: rest, body =>
    if body.contains am then checkAgentMethods rest body
    else Except.error ( "Agent must implement " ++ am)

/-- AgentMeta.__new__ (agents.py lines 48-56).  body is the list of names
defined in the class body; on success the class is created normally, modelled
by returning its name. -/
def AgentMeta_new (name : String) (body : List String) : Except String String :=
  match checkAgentMethods agent_methods body with
  | Except.error e => Except.error e
  | Except.ok _ => Except.ok name

/-- A numpy value: an integer scalar or an array of numpy values. -/
inductive NpArr where
  | int (x : Int)
  | nd (elems : List NpArr)

/-- Indexing a[-1] on a numpy value: the last element along the leading axis;
IndexError on an empty axis and on a scalar. -/
def lastIndex : NpArr → Except PyExc NpArr
  | NpArr.int _ => Except.error (PyExc.other "IndexError")
  | NpArr.nd l =>
    match l.getLast? with
    | some y => Except.ok y
    | none => Except.error (PyExc.other "IndexError")

/-- Python slicing l[-1:]: the one-element slice holding the last element, or
the empty list on an empty list. -/
def sliceLast (l : List String) : List String :=
  match l.getLast? with
  | some x => [x]
  | none => []

/-- Modelled from the spec: ConllEvaluator.evaluate_npyarray is not under
src/; per the spec it drives the external CoNLL 2004 evaluation script and
computes an F1 score.  It is abstracted as a function of its call arguments
(filename, I, Y, L, target-label slice, an empty dict, script_version) that
may raise. -/
def EvalFn : Type :=
  String → NpArr → NpArr → NpArr → List String → List (String × String) →
    String → Except PyExc ℚ

/-- The slice of SRLAgent state read by evaluate.  evaluator = none models an
instance on which the evaluator attribute is not defined, so that reading it
raises AttributeError. -/
structure SRLAgentState where
  target_labels : List String
  target_dir : String
  evaluator : Option EvalFn

/-- The try body of SRLAgent.evaluate (agents.py lines 318-326): replace Y by
Y[-1] for the dual task (two target labels), read self.evaluator (an
AttributeError when it is not defined), and call evaluate_npyarray on the last
target label with an empty dict and script_version 04. -/
def evalTryBody (ag : SRLAgentState) (I Y L : NpArr) (filename : String) :
    Except PyExc ℚ :=
  match (if ag.target_labels.length = 2 then lastIndex Y else Except.ok Y) with
  | Except.error e => Except.error e
  | Except.ok Y2 =>
    match ag.evaluator with
    | none => Except.error (PyExc.attributeError "evaluator")
    | some ev => ev filename I Y2 L (sliceLast ag.target_labels) [] "04"

/-- The except clause of SRLAgent.evaluate (agents.py lines 327-330): an
AttributeError from the try body is replaced by a fresh AttributeError; every
other outcome passes through. -/
def evalHandled (target_dir : String) : Except PyExc ℚ → Except PyExc ℚ
  | Except.error (PyExc.attributeError _) =>
    Except.error (PyExc.attributeError
      ( "evaluator not defined -- either re start a new instance or load from "
        ++ target_dir))
  | r => r

/-- The finally clause of SRLAgent.evaluate (agents.py lines 331-332):
return f1 inside finally discards any in-flight exception by Python
semantics, so the method returns normally with f1, which is still None (the
initial value) whenever the try body did not complete. -/
def evalFinallyReturn : Except PyExc ℚ → Except PyExc (Option ℚ)
  | Except.ok v => Except.ok (some v)
  | Except.error _ => Except.ok none

/-- SRLAgent.evaluate (agents.py lines 288-332), the composition of its try
body, except clause and finally clause. -/
def SRLAgent_evaluate (ag : SRLAgentState) (I Y L : NpArr) (filename : String) :
    Except PyExc (Option ℚ) :=
  evalFinallyReturn (evalHandled ag.target_dir (evalTryBody ag I Y L filename))

/-- get_tshape (agents.py lines 682-699).  A tensor shape is a list with none
for an unconstrained axis; cnf gives each target label's configured size. -/
def get_tshape (output_labels : List String) (cnf : String → Nat) :
    Except String (List (Option Nat)) :=
  let base_shape : List (Option Nat) := [none, none]
  match output_labels with
  | [lbl] => Except.ok (base_shape ++ [some (cnf lbl)])
  | [lbl1, lbl2] => Except.ok (base_shape ++ [some (max (cnf lbl1) (cnf lbl2)), some 2])
  | ls => Except.error ( "len(target_labels) <= 2 got " ++ Nat.repr ls.length)

/-- The two labeler architectures of models.labelers. -/
inductive RnnKind where
  | labeler
  | dualLabeler
deriving DecidableEq

/-- The two guarded assignments of self.rnn in SRLAgent.__init__ (agents.py
lines 251-255): the single_task guard sets a Labeler, then the dual_task guard
sets a DualLabeler; if neither holds, self.rnn stays unset (none). -/
def chooseRnn (target_labels : List String) : Option RnnKind :=
  let rnn0 : Option RnnKind := none
  let rnn1 := if target_labels.length = 1 then some RnnKind.labeler else rnn0
  if target_labels.length = 2 then some RnnKind.dualLabeler else rnn1

/-- The tail of SRLAgent.__init__ relevant to target shapes: computing T_shape
(which can raise ValueError) and then constructing the labeler. -/
def SRLAgent_build (target_labels : List String) (cnf : String → Nat) :
    Except String (List (Option Nat) × Option RnnKind) :=
  match get_tshape target_labels cnf with
  | Except.error e => Except.error e
  | Except.ok sh => Except.ok (sh, chooseRnn target_labels)

/-- Checkpoint state of SRLAgent.fit: the best validation rate seen so far and
the list of checkpoint saves (path, f1) performed, in order. -/
structure CkptState where
  best : ℚ
  saves : List (String × ℚ)
deriving DecidableEq

/-- session_path (agents.py line 482). -/
def session_path (target_dir : String) : String := target_dir ++ "model.ckpt"

/-- agents.py lines 484-490: best_validation_rate starts at the F1 recovered
from best-valid.conll for a restored session (restored = some f1) and at -1
for a fresh session. -/
def initialCkpt (restored : Option ℚ) : CkptState :=
  CkptState.mk (match restored with
                | some f1 => f1
                | none => (-1 : ℚ)) []

/-- agents.py lines 547-550: save the checkpoint exactly when f1_valid is
truthy (a Python float is truthy iff it is nonzero) and strictly exceeds the
best validation rate; at that moment the best rate becomes f1_valid. -/
def ckptStep (target_dir : String) (s : CkptState) (f1_valid : ℚ) : CkptState :=
  if f1_valid ≠ 0 ∧ s.best < f1_valid then
    CkptState.mk f1_valid (s.saves ++ [(session_path target_dir, f1_valid)])
  else s

/-- The epoch-boundary checkpoint logic of SRLAgent.fit, run over the stream
of validation F1 values that _evaluate_dataset yields, one per completed
epoch. -/
def ckptRun : String → CkptState → List ℚ → CkptState
  | _, s, [] => s
  | d, s, f :: fs => ckptRun d (ckptStep d s f) fs

/-- One observable outcome of an iteration of the training loop of fit
(agents.py lines 504-558): a batch that runs to completion (with the values of
eps and coord.should_stop for the next loop test), exhaustion of the input
queue (tf.errors.OutOfRangeError from session.run), or any other exception
escaping the loop body. -/
inductive TrainEvent where
  | batch (eps : ℚ) (stop : Bool)
  | outOfRange
  | exc (msg : String)
deriving DecidableEq

/-- The externally visible actions of fit that C7 is about. -/
inductive FitAction where
  | runBatch
  | caughtOutOfRange
  | requestStop
  | joinThreads
deriving DecidableEq

/-- How the while loop of fit came to an end.  running means the given event
list ran out while the loop would still continue (fit has not returned). -/
inductive LoopEnd where
  | normal
  | running
  | oor
  | exc (msg : String)
deriving DecidableEq

/-- The while loop of fit: while not (coord.should_stop() or eps < 1e-3), run
the next iteration.  eps starts at 100 and is updated by the loop body
(abstracted into the batch event). -/
def trainLoop : ℚ → Bool → List TrainEvent → List FitAction × LoopEnd
  | eps, stop, [] =>
    if stop = true ∨ eps < 1 / 1000 then ([], LoopEnd.normal) else ([], LoopEnd.running)
  | eps, stop, e :: rest =>
    if stop = true ∨ eps < 1 / 1000 then ([], LoopEnd.normal)
    else
      match e with
      | TrainEvent.batch eps2 stop2 =>
        let p := trainLoop eps2 stop2 rest
        (FitAction.runBatch :: p.1, p.2)
      | TrainEvent.outOfRange => ([FitAction.runBatch], LoopEnd.oor)
      | TrainEvent.exc m => ([FitAction.runBatch], LoopEnd.exc m)

/-- The try/except/finally of SRLAgent.fit (agents.py lines 501-566): the
except clause catches OutOfRangeError only; the finally clause requests the
coordinator to stop and joins the queue-runner threads on every path out of
the loop.  Result none means the loop has not finished, so fit has not
returned. -/
def SRLAgent_fit (events : List TrainEvent) :
    List FitAction × Option (Except String Unit) :=
  let p := trainLoop 100 false events
  match p.2 with
  | LoopEnd.running => (p.1, none)
  | LoopEnd.normal =>
    (p.1 ++ [FitAction.requestStop, FitAction.joinThreads], some (Except.ok ()))
  | LoopEnd.oor =>
    (p.1 ++ [FitAction.caughtOutOfRange, FitAction.requestStop, FitAction.joinThreads],
      some (Except.ok ()))
  | LoopEnd.exc m =>
    (p.1 ++ [FitAction.requestStop, FitAction.joinThreads], some (Except.error m))

end Agents

namespace DBLSTM

/-- HIDDEN_SIZE (dblstm.py line 18). -/
def HIDDEN_SIZE : List Nat := [32, 32, 32]

/-- TARGET_SIZE (dblstm.py line 19). -/
def TARGET_SIZE : Nat := 60

/-- The dataflow graph built by DBLSTM.prediction, as a symbolic expression
tree: the input placeholder X, a dynamic_rnn over a BasicLSTM cell created by
get_unit under a named variable scope, tf.reverse_sequence along time,
tf.concat on axis 2, and the final affine map (weights Wo of the given shape,
bias bo) applied per batch element. -/
inductive Tensor where
  | X
  | dynamicRnn (scope : String) (sz : Nat) (input : Tensor)
  | reverseSeq (t : Tensor)
  | concat2 (a b : Tensor)
  | affine (inDim outDim : Nat) (t : Tensor)
deriving DecidableEq

/-- The first bidirectional layer (dblstm.py lines 61-84): a forward LSTM over
X, and a backward LSTM over the sequence-reversed forward outputs, re-reversed
afterwards.  Returns (outputs_fw, outputs_bw). -/
def layer0 (idSelf sz0 : Nat) : Tensor × Tensor :=
  let outputs_fw := Tensor.dynamicRnn ( "fw" ++ Nat.repr idSelf) sz0 Tensor.X
  let outputs_bw := Tensor.reverseSeq
    (Tensor.dynamicRnn ( "bw" ++ Nat.repr idSelf) sz0 (Tensor.reverseSeq outputs_fw))
  (outputs_fw, outputs_bw)

/-- One iteration of the layer loop (dblstm.py lines 88-116) at scope number n
with loop state (h, h_1) = (previous backward outputs, previous forward
outputs): the forward input is concat(h, h_1), the backward input is
concat(outputs_fw, h) sequence-reversed, and the backward outputs are
re-reversed.  Returns the next (h, h_1). -/
def stepLayer (n sz : Nat) (h h1 : Tensor) : Tensor × Tensor :=
  let outputs_fw := Tensor.dynamicRnn ( "fw" ++ Nat.repr n) sz (Tensor.concat2 h h1)
  let outputs_bw := Tensor.reverseSeq
    (Tensor.dynamicRnn ( "bw" ++ Nat.repr n) sz
      (Tensor.reverseSeq (Tensor.concat2 outputs_fw h)))
  (outputs_bw, outputs_fw)

/-- The for loop of prediction over enumerate(HIDDEN_SIZE[1:]) with loop
counter i; the scope number is id(self) + i + 1. -/
def loopLayers (idSelf : Nat) : Nat → Tensor × Tensor → List Nat → Tensor × Tensor
  | _, st, [] => st
  | i, st, sz :: rest =>
    loopLayers idSelf (i + 1) (stepLayer (idSelf + i + 1) sz st.1 st.2) rest

/-- The loop state (h, h_1) after all layers of prediction have been built,
starting from the first layer over hidden size sz0. -/
def layersOf (idSelf : Nat) (sz0 : Nat) (rest : List Nat) : Tensor × Tensor :=
  let p := layer0 idSelf sz0
  loopLayers idSelf 0 (p.2, p.1) rest

/-- DBLSTM.prediction (dblstm.py lines 57-131), parameterized by the hidden
size list and target size (the source reads the globals HIDDEN_SIZE and
TARGET_SIZE) and by id(self).  An empty hidden size list makes the source
raise IndexError at HIDDEN_SIZE[0], modelled as none.  The returned score is
the affine map of concat(h, h_1) by Wo of shape (2 * HIDDEN_SIZE[-1],
TARGET_SIZE) plus bo. -/
def prediction (idSelf : Nat) (hiddenSize : List Nat) (targetSize : Nat) :
    Option Tensor :=
  match hiddenSize with
  | [] => none
  | sz0 :: rest =>
    let p := layersOf idSelf sz0 rest
    some (Tensor.affine (2 * ((sz0 :: rest).getLast (List.cons_ne_nil sz0 rest)))
      targetSize (Tensor.concat2 p.1 p.2))

/-- tf.argmax over a vector of scores: the index of the first maximal entry.
Running state: next index i, best index bi, best value bv. -/
def argmaxAux : Nat → Nat → ℚ → List ℚ → Nat
  | _, bi, _, [] => bi
  | i, bi, bv, x :: xs =>
    if bv < x then argmaxAux (i + 1) i x xs else argmaxAux (i + 1) bi bv xs

/-- tf.argmax over the last axis; the empty vector is out of domain in
TensorFlow and is mapped to 0. -/
def argmaxIdx : List ℚ → Nat
  | [] => 0
  | x :: xs => argmaxAux 1 0 x xs

/-- self.Tflat = tf.cast(tf.argmax(T, 2), tf.int32) (dblstm.py line 48): the
per-position argmax over the class axis of the one-hot target tensor T of
shape [batch, time, classes]; the int32 cast is the identity on these small
naturals. -/
def Tflat (T : List (List (List ℚ))) : List (List Nat) :=
  T.map (fun row => row.map argmaxIdx)

/-- tf.contrib.crf.crf_log_likelihood applied to a batch: the framework kernel
computing one log-likelihood per batch element is external to the repository
and is abstracted as the parameter crfLL (scores, tag sequence, sequence
length); the batch operation zips the three batch axes. -/
def crf_log_likelihood (crfLL : List (List ℚ) → List Nat → Nat → ℚ)
    (P : List (List (List ℚ))) (tags : List (List Nat)) (lens : List Nat) :
    List ℚ :=
  (P.zip (tags.zip lens)).map (fun t => crfLL t.1 t.2.1 t.2.2)

/-- tf.reduce_mean over a vector. -/
def reduce_mean (l : List ℚ) : ℚ := l.sum / (l.length : ℚ)

/-- DBLSTM.cost (dblstm.py lines 141-149): the mean of the elementwise
negation of the CRF log-likelihood of (prediction scores P, Tflat T, sequence
lengths).  The viterbi decode computed alongside does not enter the result. -/
def cost (crfLL : List (List ℚ) → List Nat → Nat → ℚ)
    (P T : List (List (List ℚ))) (lens : List Nat) : ℚ :=
  reduce_mean ((crf_log_likelihood crfLL P (Tflat T) lens).map (fun x => -x))

end DBLSTM

/-! ## Shared helper lemmas -/

theorem strContains_iff (l : List String) (a : String) :
    l.contains a = true ↔ a ∈ l := by
  simp [List.elem_iff]

namespace DataOutputs

theorem mem_insertLe (a x : String) (l : List String) :
    a ∈ insertLe x l ↔ a = x ∨ a ∈ l := by
  induction l with
  | nil => simp [insertLe]
  | cons y ys ih =>
    simp only [insertLe]
    split
    · simp [List.mem_cons]
    · simp only [List.mem_cons, ih]
      tauto

theorem mem_pySorted (a : String) (l : List String) :
    a ∈ pySorted l ↔ a ∈ l := by
  induction l with
  | nil => simp [pySorted]
  | cons y ys ih =>
    show a ∈ insertLe y (pySorted ys) ↔ a ∈ y :: ys
    rw [mem_insertLe, ih, List.mem_cons]

theorem length_insertLe (x : String) (l : List String) :
    (insertLe x l).length = l.length + 1 := by
  induction l with
  | nil => rfl
  | cons y ys ih =>
    simp only [insertLe]
    split
    · simp
    · simp [ih]

theorem length_pySorted (l : List String) :
    (pySorted l).length = l.length := by
  induction l with
  | nil => rfl
  | cons y ys ih =>
    show (insertLe y (pySorted ys)).length = ys.length + 1
    rw [length_insertLe, ih]

theorem format02_length (n : Nat) : 2 ≤ (format02 n).length := by
  have h : (format02 n).length
      = (List.replicate (2 - (Nat.repr n).length) '0').length + (Nat.repr n).length := by
    rw [format02, String.length_append]
    rfl
  rw [h, List.length_replicate]
  omega

end DataOutputs

namespace DataOutputs

/-- C6: for every output_dir, vars_dict and to_persist, outputs_settings_persist
returns the dict containing exactly the key-value pairs of vars_dict whose key
occurs in to_persist, and writes to output_dir + settings.txt one line
name: value per such pair and nothing else; the model is pure, so vars_dict is
left unmodified. -/
theorem settings_persist_spec (output_dir : String)
    (vars_dict : List (String × String)) (to_persist : List String) :
    (∀ p : String × String,
      p ∈ (outputs_settings_persist output_dir vars_dict to_persist).1 ↔
        p ∈ vars_dict ∧ p.1 ∈ to_persist) ∧
    (outputs_settings_persist output_dir vars_dict to_persist).2.1 =
      output_dir ++ "settings.txt" ∧
    (outputs_settings_persist output_dir vars_dict to_persist).2.2 =
      String.join ((outputs_settings_persist output_dir vars_dict to_persist).1.map
        (fun p => p.1 ++ ": " ++ p.2 ++ "\n")) ∧
    (outputs_settings_persist output_dir vars_dict to_persist).1 =
      vars_dict.filter (fun p => to_persist.contains p.1) := by
  refine ⟨?_, rfl, rfl, rfl⟩
  intro p
  simp only [outputs_settings_persist, List.mem_filter, strContains_iff]

end DataOutputs

namespace Agents

theorem checkAgentMethods_ok_iff (ms body : List String) :
    checkAgentMethods ms body = Except.ok () ↔ ∀ am ∈ ms, am ∈ body := by
  induction ms with
  | nil => simp [checkAgentMethods]
  | cons am rest ih =>
    simp only [checkAgentMethods]
    by_cases h : body.contains am = true
    · rw [if_pos h, ih]
      have ham : am ∈ body := (strContains_iff body am).mp h
      simp [List.forall_mem_cons, ham]
    · rw [if_neg h]
      have ham : am ∉ body := fun hm => h ((strContains_iff body am).mpr hm)
      simp [List.forall_mem_cons, ham]

/-- C9: creating a class through AgentMeta raises TypeError iff one of
evaluate, fit, load, predict is absent from the class body; evaluate_dataset
is not among the required names; with all four present the class is created
normally. -/
theorem agent_meta_spec (name : String) (body : List String) :
    ((∃ e, AgentMeta_new name body = Except.error e) ↔
      ∃ am ∈ agent_methods, am ∉ body) ∧
    ((∀ am ∈ agent_methods, am ∈ body) → AgentMeta_new name body = Except.ok name) ∧
    ¬ ( "evaluate_dataset" ∈ agent_methods) := by
  refine ⟨⟨?_, ?_⟩, ?_, by decide⟩
  · rintro ⟨e, he⟩
    by_contra hall
    push_neg at hall
    have hok : checkAgentMethods agent_methods body = Except.ok () :=
      (checkAgentMethods_ok_iff _ _).mpr hall
    rw [AgentMeta_new, hok] at he
    exact Except.noConfusion he
  · rintro ⟨am, ham, hnb⟩
    cases hc : checkAgentMethods agent_methods body with
    | ok u =>
      exact absurd ((checkAgentMethods_ok_iff _ _).mp hc am ham) hnb
    | error e =>
      exact ⟨e, by rw [AgentMeta_new, hc]⟩
  · intro hall
    rw [AgentMeta_new, (checkAgentMethods_ok_iff _ _).mpr hall]

/-- Witness for C9 at concrete inputs: a body holding the four required names
(and one extra, without evaluate_dataset) is accepted. -/
theorem agent_meta_spec_witness :
    AgentMeta_new "MyAgent" [ "evaluate", "fit", "load", "predict", "extra" ] =
      Except.ok "MyAgent" :=
  (agent_meta_spec "MyAgent" [ "evaluate", "fit", "load", "predict", "extra" ]).2.1
    (by decide)

/-- C10: get_tshape raises ValueError iff the number of target labels is
neither 1 nor 2; one label gives shape [None, None, m] with m the label's
size, two labels give [None, None, max of the two sizes, 2]; consequently
SRLAgent.__init__ completes only for one or two labels, constructing a Labeler
exactly in the single-task case and a DualLabeler exactly in the dual-task
case. -/
theorem get_tshape_spec (cnf : String → Nat) (labels : List String) :
    ((∃ sh, get_tshape labels cnf = Except.ok sh) ↔
      labels.length = 1 ∨ labels.length = 2) ∧
    (∀ lbl, labels = [lbl] →
      get_tshape labels cnf = Except.ok [none, none, some (cnf lbl)]) ∧
    (∀ lbl1 lbl2, labels = [lbl1, lbl2] →
      get_tshape labels cnf =
        Except.ok [none, none, some (max (cnf lbl1) (cnf lbl2)), some 2]) ∧
    (∀ sh rnn, SRLAgent_build labels cnf = Except.ok (sh, rnn) →
      (labels.length = 1 ∧ rnn = some RnnKind.labeler) ∨
      (labels.length = 2 ∧ rnn = some RnnKind.dualLabeler)) := by
  rcases labels with _ | ⟨a, _ | ⟨b, _ | ⟨c, rest⟩⟩⟩
  · refine ⟨by simp [get_tshape], ?_, ?_, ?_⟩
    · rintro lbl h
      exact absurd h (by simp)
    · rintro lbl1 lbl2 h
      exact absurd h (by simp)
    · rintro sh rnn h
      simp [SRLAgent_build, get_tshape] at h
  · refine ⟨by simp [get_tshape], ?_, ?_, ?_⟩
    · rintro lbl h
      obtain rfl : lbl = a := by
        injection h with h1 _
        exact h1.symm
      rfl
    · rintro lbl1 lbl2 h
      exact absurd h (by simp)
    · rintro sh rnn h
      left
      refine ⟨rfl, ?_⟩
      have h2 : Except.ok (([none, none, some (cnf a)] : List (Option Nat)),
          some RnnKind.labeler) = Except.ok (sh, rnn) := h
      injection h2 with hp
      injection hp with _ hr
      exact hr.symm
  · refine ⟨by simp [get_tshape], ?_, ?_, ?_⟩
    · rintro lbl h
      exact absurd h (by simp)
    · rintro lbl1 lbl2 h
      obtain rfl : lbl1 = a := by
        injection h with h1 _
        exact h1.symm
      obtain rfl : lbl2 = b := by
        injection h with _ h2
        injection h2 with h2 _
        exact h2.symm
      rfl
    · rintro sh rnn h
      right
      refine ⟨rfl, ?_⟩
      have h2 : Except.ok (([none, none, some (max (cnf a) (cnf b)), some 2] :
          List (Option Nat)), some RnnKind.dualLabeler) = Except.ok (sh, rnn) := h
      injection h2 with hp
      injection hp with _ hr
      exact hr.symm
  · refine ⟨?_, ?_, ?_, ?_⟩
    · simp only [get_tshape, List.length_cons]
      constructor
      · rintro ⟨sh, hsh⟩
        exact Except.noConfusion hsh
      · intro hlen
        omega
    · rintro lbl h
      exact absurd h (by simp)
    · rintro lbl1 lbl2 h
      exact absurd h (by simp)
    · rintro sh rnn h
      simp [SRLAgent_build, get_tshape] at h

/-- Witness for C10 at concrete inputs: a single target label and a pair of
target labels, with their resulting shapes. -/
theorem get_tshape_spec_witness :
    get_tshape [ "IOB" ] (fun _ => 5) = Except.ok [none, none, some 5] ∧
    get_tshape [ "T1", "T2" ] (fun _ => 7) =
      Except.ok [none, none, some (max 7 7), some 2] :=
  ⟨(get_tshape_spec (fun _ => 5) [ "IOB" ]).2.1 "IOB" rfl,
   (get_tshape_spec (fun _ => 7) [ "T1", "T2" ]).2.2.1 "T1" "T2" rfl⟩

/-- C8: SRLAgent.evaluate never propagates an exception from its try block:
the result is always a normal return, and with the evaluator undefined the
constructed AttributeError is discarded by the return f1 in the finally
clause, so the call returns None. -/
theorem evaluate_total_spec (ag : SRLAgentState) (I Y L : NpArr)
    (filename : String) :
    (∃ r, SRLAgent_evaluate ag I Y L filename = Except.ok r) ∧
    (ag.evaluator = none → SRLAgent_evaluate ag I Y L filename = Except.ok none) := by
  constructor
  · unfold SRLAgent_evaluate
    cases h : evalHandled ag.target_dir (evalTryBody ag I Y L filename) with
    | ok v => exact ⟨some v, rfl⟩
    | error e => exact ⟨none, rfl⟩
  · intro hev
    unfold SRLAgent_evaluate evalTryBody
    rw [hev]
    cases hY : (if ag.target_labels.length = 2 then lastIndex Y else Except.ok Y) with
    | error e => cases e <;> rfl
    | ok Y2 => rfl

/-- Witness for C8 at a concrete input: an agent without an evaluator returns
None from evaluate. -/
theorem evaluate_total_spec_witness :
    SRLAgent_evaluate (SRLAgentState.mk [ "IOB" ] "out/" none)
      (NpArr.int 0) (NpArr.int 1) (NpArr.int 2) "valid" = Except.ok none :=
  (evaluate_total_spec (SRLAgentState.mk [ "IOB" ] "out/" none)
    (NpArr.int 0) (NpArr.int 1) (NpArr.int 2) "valid").2 rfl

/-- C4: with a defined evaluator, SRLAgent.evaluate returns the F1 score that
the external CoNLL 2004 script driver computes with script_version 04 on the
predictions restricted to the last target label, Y being first replaced by its
last element when two target labels are configured. -/
theorem evaluate_script_spec (ag : SRLAgentState) (ev : EvalFn) (I L : NpArr)
    (filename : String) (hev : ag.evaluator = some ev) :
    (∀ Y f1, ag.target_labels.length ≠ 2 →
      ev filename I Y L (sliceLast ag.target_labels) [] "04" = Except.ok f1 →
      SRLAgent_evaluate ag I Y L filename = Except.ok (some f1)) ∧
    (∀ Y Ylast f1, ag.target_labels.length = 2 →
      lastIndex Y = Except.ok Ylast →
      ev filename I Ylast L (sliceLast ag.target_labels) [] "04" = Except.ok f1 →
      SRLAgent_evaluate ag I Y L filename = Except.ok (some f1)) := by
  constructor
  · intro Y f1 hlen hcall
    have h1 : evalTryBody ag I Y L filename = Except.ok f1 := by
      unfold evalTryBody
      rw [if_neg hlen, hev]
      exact hcall
    unfold SRLAgent_evaluate
    rw [h1]
    rfl
  · intro Y Ylast f1 hlen hY hcall
    have h1 : evalTryBody ag I Y L filename = Except.ok f1 := by
      unfold evalTryBody
      rw [if_pos hlen, hY, hev]
      exact hcall
    unfold SRLAgent_evaluate
    rw [h1]
    rfl

/-- Witness for C4 at a concrete input: a single-task agent whose evaluator
computes 7 returns Except.ok (some 7). -/
theorem evaluate_script_spec_witness :
    SRLAgent_evaluate
      (SRLAgentState.mk [ "IOB" ] "out/"
        (some (fun _ _ _ _ _ _ _ => Except.ok (7 : ℚ))))
      (NpArr.int 0) (NpArr.int 1) (NpArr.int 2) "valid" = Except.ok (some 7) :=
  (evaluate_script_spec
    (SRLAgentState.mk [ "IOB" ] "out/"
      (some (fun _ _ _ _ _ _ _ => Except.ok (7 : ℚ))))
    (fun _ _ _ _ _ _ _ => Except.ok (7 : ℚ))
    (NpArr.int 0) (NpArr.int 2) "valid" rfl).1
    (NpArr.int 1) 7 (by decide) rfl

end Agents


namespace Agents

theorem ckptRun_append (d : String) (s : CkptState) (l1 l2 : List ℚ) :
    ckptRun d s (l1 ++ l2) = ckptRun d (ckptRun d s l1) l2 := by
  induction l1 generalizing s with
  | nil => rfl
  | cons f fs ih =>
    simp only [List.cons_append, ckptRun]
    exact ih _

theorem ckptStep_best_le (d : String) (s : CkptState) (f : ℚ) :
    s.best ≤ (ckptStep d s f).best := by
  unfold ckptStep
  split
  · rename_i h
    exact le_of_lt h.2
  · exact le_refl _

theorem ckptRun_best_le (d : String) (s : CkptState) (l : List ℚ) :
    s.best ≤ (ckptRun d s l).best := by
  induction l generalizing s with
  | nil => exact le_refl _
  | cons f fs ih => exact le_trans (ckptStep_best_le d s f) (ih _)

/-- C1: over the stream of per-epoch validation F1 values, the checkpoint at
target_dir + model.ckpt is saved at epoch i exactly when that epoch's f1_valid
is truthy (nonzero) and strictly exceeds the best validation rate so far, at
which moment the best rate becomes f1_valid; the best rate starts at -1 for a
fresh session or at the restored F1, and is non-decreasing over the whole
run. -/
theorem fit_checkpoint_spec (target_dir : String) (restored : Option ℚ)
    (f1s : List ℚ) (i j : Nat) (hi : i < f1s.length) (hij : i ≤ j) :
    (initialCkpt restored).best =
      (match restored with
       | some f1 => f1
       | none => (-1 : ℚ)) ∧
    ckptRun target_dir (initialCkpt restored) (f1s.take (i + 1)) =
      ckptStep target_dir (ckptRun target_dir (initialCkpt restored) (f1s.take i))
        (f1s.get ⟨i, hi⟩) ∧
    ((ckptStep target_dir (ckptRun target_dir (initialCkpt restored) (f1s.take i))
        (f1s.get ⟨i, hi⟩)).saves ≠
        (ckptRun target_dir (initialCkpt restored) (f1s.take i)).saves ↔
      (f1s.get ⟨i, hi⟩ ≠ 0 ∧
        (ckptRun target_dir (initialCkpt restored) (f1s.take i)).best < f1s.get ⟨i, hi⟩)) ∧
    ((f1s.get ⟨i, hi⟩ ≠ 0 ∧
        (ckptRun target_dir (initialCkpt restored) (f1s.take i)).best < f1s.get ⟨i, hi⟩) →
      ckptStep target_dir (ckptRun target_dir (initialCkpt restored) (f1s.take i))
          (f1s.get ⟨i, hi⟩) =
        CkptState.mk (f1s.get ⟨i, hi⟩)
          ((ckptRun target_dir (initialCkpt restored) (f1s.take i)).saves ++
            [(target_dir ++ "model.ckpt", f1s.get ⟨i, hi⟩)])) ∧
    (¬ (f1s.get ⟨i, hi⟩ ≠ 0 ∧
        (ckptRun target_dir (initialCkpt restored) (f1s.take i)).best < f1s.get ⟨i, hi⟩) →
      ckptStep target_dir (ckptRun target_dir (initialCkpt restored) (f1s.take i))
          (f1s.get ⟨i, hi⟩) =
        ckptRun target_dir (initialCkpt restored) (f1s.take i)) ∧
    (ckptRun target_dir (initialCkpt restored) (f1s.take i)).best ≤
      (ckptRun target_dir (initialCkpt restored) (f1s.take j)).best := by
  refine ⟨rfl, ?_, ?_, ?_, ?_, ?_⟩
  · have ht : f1s.take (i + 1) = f1s.take i ++ [f1s.get ⟨i, hi⟩] := by
      rw [List.take_succ, List.getElem?_eq_getElem hi]
      rfl
    rw [ht, ckptRun_append]
    rfl
  · constructor
    · intro hne
      by_contra hc
      exact hne (by rw [ckptStep, if_neg hc])
    · intro hc
      rw [ckptStep, if_pos hc]
      intro heq
      have hlen := congrArg List.length heq
      simp at hlen
  · intro hc
    rw [ckptStep, if_pos hc]
    rfl
  · intro hc
    rw [ckptStep, if_neg hc]
  · have hj : f1s.take j = f1s.take i ++ (f1s.drop i).take (j - i) := by
      calc f1s.take j = f1s.take (i + (j - i)) := by rw [Nat.add_sub_cancel' hij]
        _ = f1s.take i ++ (f1s.drop i).take (j - i) := List.take_add f1s i (j - i)
    rw [hj, ckptRun_append]
    exact ckptRun_best_le _ _ _

/-- Witness for C1 at a concrete run of four epochs, instantiating the
monotonicity of the best validation rate. -/
theorem fit_checkpoint_spec_witness :
    (0 : Nat) < ([ (1:ℚ)/2, 0, 1/4, 3/4 ] : List ℚ).length ∧ (0 : Nat) ≤ 2 ∧
    (ckptRun "out/" (initialCkpt none) (([ (1:ℚ)/2, 0, 1/4, 3/4 ] : List ℚ).take 0)).best ≤
      (ckptRun "out/" (initialCkpt none) (([ (1:ℚ)/2, 0, 1/4, 3/4 ] : List ℚ).take 2)).best :=
  ⟨by decide, by decide,
    (fit_checkpoint_spec "out/" none [ (1:ℚ)/2, 0, 1/4, 3/4 ] 0 2
      (by decide) (by decide)).2.2.2.2.2⟩

/-- C7: whenever the training loop of fit ends -- normal exit (convergence or
coordinator stop), queue exhaustion (OutOfRangeError, caught and not
propagated), or any other exception (propagated) -- fit requests the
coordinator to stop and joins the queue-runner threads before returning. -/
theorem fit_cleanup_spec (events : List TrainEvent) :
    (∀ acts res, SRLAgent_fit events = (acts, some res) →
      (∃ pre, acts = pre ++ [FitAction.requestStop, FitAction.joinThreads]) ∧
      (res = Except.ok () ∨
        ∃ m, (trainLoop 100 false events).2 = LoopEnd.exc m ∧ res = Except.error m)) ∧
    ((trainLoop 100 false events).2 = LoopEnd.oor →
      SRLAgent_fit events =
        ((trainLoop 100 false events).1 ++
          [FitAction.caughtOutOfRange, FitAction.requestStop, FitAction.joinThreads],
          some (Except.ok ()))) ∧
    ((trainLoop 100 false events).2 = LoopEnd.running →
      (SRLAgent_fit events).2 = none) := by
  refine ⟨?_, ?_, ?_⟩
  · intro acts res h
    cases hend : (trainLoop 100 false events).2 with
    | running =>
      simp only [SRLAgent_fit, hend] at h
      exact absurd h (by simp)
    | normal =>
      simp only [SRLAgent_fit, hend] at h
      injection h with h1 h2
      injection h2 with h2e
      exact ⟨⟨(trainLoop 100 false events).1, h1.symm⟩, Or.inl h2e.symm⟩
    | oor =>
      simp only [SRLAgent_fit, hend] at h
      injection h with h1 h2
      injection h2 with h2e
      refine ⟨⟨(trainLoop 100 false events).1 ++ [FitAction.caughtOutOfRange], ?_⟩,
        Or.inl h2e.symm⟩
      rw [← h1]
      simp
    | exc m =>
      simp only [SRLAgent_fit, hend] at h
      injection h with h1 h2
      injection h2 with h2e
      exact ⟨⟨(trainLoop 100 false events).1, h1.symm⟩, Or.inr ⟨m, rfl, h2e.symm⟩⟩
  · intro hoor
    simp only [SRLAgent_fit, hoor]
  · intro hrun
    simp only [SRLAgent_fit, hrun]

/-- Witness for C7 at a concrete event stream ending in queue exhaustion. -/
theorem fit_cleanup_spec_witness :
    (trainLoop 100 false [TrainEvent.batch 50 false, TrainEvent.outOfRange]).2 =
      LoopEnd.oor ∧
    SRLAgent_fit [TrainEvent.batch 50 false, TrainEvent.outOfRange] =
      ((trainLoop 100 false [TrainEvent.batch 50 false, TrainEvent.outOfRange]).1 ++
        [FitAction.caughtOutOfRange, FitAction.requestStop, FitAction.joinThreads],
        some (Except.ok ())) :=
  ⟨by norm_num [trainLoop],
    (fit_cleanup_spec [TrainEvent.batch 50 false, TrainEvent.outOfRange]).2.1
      (by norm_num [trainLoop])⟩

end Agents

theorem map_getD {α β : Type*} (f : α → β) (d : α) (l : List α) (i : Nat) :
    (l.map f).getD i (f d) = f (l.getD i d) := by
  induction l generalizing i with
  | nil => rfl
  | cons a as ih =>
    cases i with
    | zero => rfl
    | succ n => exact ih n

theorem zip3_map_sum {α β γ : Type*} (g : α → β → γ → ℚ) (da : α) (db : β) (dc : γ) :
    ∀ (A : List α) (B : List β) (C : List γ), A.length = B.length → B.length = C.length →
      ((A.zip (B.zip C)).map (fun t => g t.1 t.2.1 t.2.2)).sum =
        (Finset.range A.length).sum
          (fun i => g (A.getD i da) (B.getD i db) (C.getD i dc)) := by
  intro A
  induction A with
  | nil =>
    intro B C _ _
    simp
  | cons a A2 ih =>
    intro B C hAB hBC
    cases B with
    | nil => simp at hAB
    | cons b B2 =>
      cases C with
      | nil => simp at hBC
      | cons c C2 =>
        simp only [List.zip_cons_cons, List.map_cons, List.sum_cons, List.length_cons]
        rw [Finset.sum_range_succ']
        simp only [List.getD_cons_succ, List.getD_cons_zero]
        rw [ih B2 C2 (by simpa using hAB) (by simpa using hBC)]
        ring

namespace DBLSTM

/-- C2: DBLSTM.cost equals the mean over the batch of the negative CRF
log-likelihood of the flattened targets (the per-position argmax of T along
the class axis) given the prediction scores and the sequence lengths. -/
theorem cost_spec (crfLL : List (List ℚ) → List Nat → Nat → ℚ)
    (P T : List (List (List ℚ))) (lens : List Nat) (n : Nat)
    (hP : P.length = n) (hT : T.length = n) (hl : lens.length = n) :
    cost crfLL P T lens =
      ((Finset.range n).sum
        (fun i => -(crfLL (P.getD i []) ((T.getD i []).map argmaxIdx) (lens.getD i 0)))) /
        (n : ℚ) := by
  have hmap : ∀ i : Nat,
      (T.map (fun row => row.map argmaxIdx)).getD i [] = (T.getD i []).map argmaxIdx := by
    intro i
    have h := map_getD (fun row => row.map argmaxIdx) ([] : List (List ℚ)) T i
    simpa using h
  unfold cost reduce_mean crf_log_likelihood Tflat
  rw [List.map_map]
  have hsum := zip3_map_sum (fun a b c => -(crfLL a b c)) ([] : List (List ℚ))
    ([] : List Nat) (0 : Nat) P (T.map (fun row => row.map argmaxIdx)) lens
    (by simp [hP, hT]) (by simp [hT, hl])
  have hcomp : ((fun x => -x) ∘ fun t : List (List ℚ) × (List Nat × Nat) =>
      crfLL t.1 t.2.1 t.2.2) = fun t : List (List ℚ) × (List Nat × Nat) =>
      -(crfLL t.1 t.2.1 t.2.2) := by
    funext t
    rfl
  rw [hcomp]
  rw [show (fun t : List (List ℚ) × (List Nat × Nat) => -(crfLL t.1 t.2.1 t.2.2)) =
    (fun t : List (List ℚ) × (List Nat × Nat) =>
      (fun a b c => -(crfLL a b c)) t.1 t.2.1 t.2.2) from rfl]
  rw [hsum, hP]
  have hlen : ((P.zip ((T.map (fun row => row.map argmaxIdx)).zip lens)).map
      (fun t : List (List ℚ) × (List Nat × Nat) =>
        (fun a b c => -(crfLL a b c)) t.1 t.2.1 t.2.2)).length = n := by
    simp [hP, hT, hl]
  rw [hlen]
  simp only [hmap]

/-- Witness for C2 at a concrete batch of one example with two time steps. -/
theorem cost_spec_witness :
    ([ [ [ (1:ℚ), 2 ], [ 3, 4 ] ] ] : List (List (List ℚ))).length = 1 ∧
    ([ [ [ (5:ℚ), 3 ], [ 0, 6 ] ] ] : List (List (List ℚ))).length = 1 ∧
    ([ 2 ] : List Nat).length = 1 ∧
    cost (fun _ tags len => ((tags.length + len : Nat) : ℚ))
        [ [ [ (1:ℚ), 2 ], [ 3, 4 ] ] ] [ [ [ (5:ℚ), 3 ], [ 0, 6 ] ] ] [ 2 ] =
      ((Finset.range 1).sum
        (fun i =>
          -((fun _ tags len => ((tags.length + len : Nat) : ℚ))
            (([ [ [ (1:ℚ), 2 ], [ 3, 4 ] ] ] : List (List (List ℚ))).getD i [])
            ((([ [ [ (5:ℚ), 3 ], [ 0, 6 ] ] ] : List (List (List ℚ))).getD i []).map argmaxIdx)
            (([ 2 ] : List Nat).getD i 0)))) / ((1 : Nat) : ℚ) :=
  ⟨rfl, rfl, rfl,
    cost_spec (fun _ tags len => ((tags.length + len : Nat) : ℚ))
      [ [ [ (1:ℚ), 2 ], [ 3, 4 ] ] ] [ [ [ (5:ℚ), 3 ], [ 0, 6 ] ] ] [ 2 ] 1 rfl rfl rfl⟩

theorem loopLayers_append (idSelf : Nat) (l : List Nat) :
    ∀ (i : Nat) (st : Tensor × Tensor) (sz : Nat),
      loopLayers idSelf i st (l ++ [sz]) =
        stepLayer (idSelf + (i + l.length) + 1) sz
          (loopLayers idSelf i st l).1 (loopLayers idSelf i st l).2 := by
  induction l with
  | nil => exact fun i st sz => rfl
  | cons sz0 l2 ih =>
    intro i st sz
    show loopLayers idSelf (i + 1) (stepLayer (idSelf + i + 1) sz0 st.1 st.2) (l2 ++ [sz]) =
      stepLayer (idSelf + (i + (l2.length + 1)) + 1) sz
        (loopLayers idSelf (i + 1) (stepLayer (idSelf + i + 1) sz0 st.1 st.2) l2).1
        (loopLayers idSelf (i + 1) (stepLayer (idSelf + i + 1) sz0 st.1 st.2) l2).2
    rw [ih (i + 1) (stepLayer (idSelf + i + 1) sz0 st.1 st.2) sz]
    rw [show (i + 1) + l2.length = i + (l2.length + 1) from by omega]

/-- C3: prediction builds one bidirectional LSTM layer per entry of the hidden
size list: the first layer runs a forward LSTM over X and a backward LSTM over
the sequence-reversed forward outputs, re-reversed afterwards; every appended
layer takes as forward input the concatenation of the previous backward and
forward outputs and as backward input the concatenation of its own forward
outputs with the previous backward outputs (sequence-reversed, the outputs
re-reversed); the returned score is the affine map (Wo of shape
(2 * last hidden size, target size), bias bo) of the concatenated last-layer
backward and forward outputs; the empty hidden size list is out of domain. -/
theorem prediction_spec (idSelf sz0 targetSize : Nat) :
    (layersOf idSelf sz0 [] =
      (Tensor.reverseSeq
        (Tensor.dynamicRnn ( "bw" ++ Nat.repr idSelf) sz0
          (Tensor.reverseSeq (Tensor.dynamicRnn ( "fw" ++ Nat.repr idSelf) sz0 Tensor.X))),
       Tensor.dynamicRnn ( "fw" ++ Nat.repr idSelf) sz0 Tensor.X)) ∧
    (∀ rest sz,
      layersOf idSelf sz0 (rest ++ [sz]) =
        (Tensor.reverseSeq
          (Tensor.dynamicRnn ( "bw" ++ Nat.repr (idSelf + rest.length + 1)) sz
            (Tensor.reverseSeq
              (Tensor.concat2
                (Tensor.dynamicRnn ( "fw" ++ Nat.repr (idSelf + rest.length + 1)) sz
                  (Tensor.concat2 (layersOf idSelf sz0 rest).1 (layersOf idSelf sz0 rest).2))
                (layersOf idSelf sz0 rest).1))),
         Tensor.dynamicRnn ( "fw" ++ Nat.repr (idSelf + rest.length + 1)) sz
           (Tensor.concat2 (layersOf idSelf sz0 rest).1 (layersOf idSelf sz0 rest).2))) ∧
    (∀ rest, prediction idSelf (sz0 :: rest) targetSize =
      some (Tensor.affine (2 * ((sz0 :: rest).getLast (List.cons_ne_nil sz0 rest)))
        targetSize
        (Tensor.concat2 (layersOf idSelf sz0 rest).1 (layersOf idSelf sz0 rest).2))) ∧
    prediction idSelf [] targetSize = none := by
  refine ⟨rfl, ?_, fun rest => rfl, rfl⟩
  intro rest sz
  unfold layersOf
  rw [loopLayers_append idSelf rest 0 _ sz]
  rw [Nat.zero_add]
  rfl

end DBLSTM

namespace DataOutputs

theorem charContains_iff (l : List Char) (a : Char) : l.contains a = true ↔ a ∈ l := by
  simp [List.elem_iff]

theorem charPrefix_append (p t : List Char) : charPrefix p (p ++ t) = true := by
  induction p with
  | nil => rfl
  | cons c ps ih => simp [charPrefix, ih]

theorem charPrefix_drop (p : List Char) :
    ∀ s : List Char, charPrefix p s = true → s = p ++ s.drop p.length := by
  induction p with
  | nil =>
    intro s _
    rfl
  | cons c ps ih =>
    intro s h
    cases s with
    | nil => simp [charPrefix] at h
    | cons d ds =>
      simp only [charPrefix, Bool.and_eq_true] at h
      obtain ⟨hcd, hps⟩ := h
      have hc : c = d := eq_of_beq hcd
      subst hc
      show c :: ds = c :: (ps ++ ds.drop ps.length)
      rw [← ih ds hps]

theorem charPrefix_mem (p s : List Char) (h : charPrefix p s = true) :
    ∀ c ∈ p, c ∈ s := by
  intro c hc
  rw [charPrefix_drop p s h]
  exact List.mem_append_left _ hc

theorem not_meta_beq (c q : Char) (hq : reMeta.contains q = true)
    (hc : reMeta.contains c = false) : (c == q) = false := by
  cases hbe : c == q with
  | false => rfl
  | true =>
    have hcq : c = q := eq_of_beq hbe
    rw [hcq, hq] at hc
    exact Bool.noConfusion hc

theorem globLiteral_of_reLiteral (s : String) (h : reLiteralStr s = true) :
    globLiteral s = true := by
  unfold reLiteralStr at h
  unfold globLiteral
  rw [List.all_eq_true] at h ⊢
  intro c hc
  have hcm : reMeta.contains c = false := by simpa using h c hc
  have h1 := not_meta_beq c '*' (by decide) hcm
  have h2 := not_meta_beq c '?' (by decide) hcm
  have h3 := not_meta_beq c '[' (by decide) hcm
  simp [h1, h2, h3]

theorem reParse_literal :
    ∀ cs : List Char, cs.all (fun c => !(reMeta.contains c)) = true →
      reParse cs = some (cs.map (fun c => (ReAtom.lit c, ReQuant.one))) := by
  intro cs
  induction cs with
  | nil => intro _; rfl
  | cons c rest ih =>
    intro h
    rw [List.all_cons, Bool.and_eq_true] at h
    obtain ⟨hc, hrest⟩ := h
    have hcm : reMeta.contains c = false := by simpa using hc
    have hcnot : c ∉ reMeta := by
      intro hmem
      rw [(charContains_iff _ _).mpr hmem] at hcm
      exact Bool.noConfusion hcm
    have hdot : (c == '.') = false := not_meta_beq c '.' (by decide) hcm
    cases rest with
    | nil => simp [reParse, hcm, hdot, hcnot]
    | cons q rest2 =>
      have hq : (!(reMeta.contains q)) = true := by
        rw [List.all_cons, Bool.and_eq_true] at hrest
        exact hrest.1
      have hqm : reMeta.contains q = false := by simpa using hq
      have hq1 := not_meta_beq q '*' (by decide) hqm
      have hq2 := not_meta_beq q '+' (by decide) hqm
      have hq3 := not_meta_beq q '?' (by decide) hqm
      simp [reParse, hcm, hdot, hq1, hq2, hq3, hcnot, ih hrest]

theorem reMatchFuel_lits_pos (cs : List Char) :
    ∀ (s : List Char) (fuel : Nat), charPrefix cs s = true → cs.length < fuel →
      reMatchFuel fuel (cs.map (fun c => (ReAtom.lit c, ReQuant.one))) s =
        some cs.length := by
  induction cs with
  | nil =>
    intro s fuel _ hf
    cases fuel with
    | zero => omega
    | succ f => rfl
  | cons c cs2 ih =>
    intro s fuel hcp hf
    cases fuel with
    | zero => omega
    | succ f =>
      cases s with
      | nil => simp [charPrefix] at hcp
      | cons d ds =>
        simp only [charPrefix, Bool.and_eq_true] at hcp
        obtain ⟨hbe, hcp2⟩ := hcp
        have hb : atomMatches (ReAtom.lit c) d = true := hbe
        simp only [List.map_cons, reMatchFuel]
        rw [if_pos hb]
        have hf2 : cs2.length < f := by
          rw [List.length_cons] at hf
          omega
        rw [ih ds f hcp2 hf2]
        simp [List.length_cons]

theorem reMatchFuel_lits_neg (cs : List Char) :
    ∀ (s : List Char) (fuel : Nat), charPrefix cs s = false → cs.length < fuel →
      reMatchFuel fuel (cs.map (fun c => (ReAtom.lit c, ReQuant.one))) s = none := by
  induction cs with
  | nil =>
    intro s fuel hcp _
    simp [charPrefix] at hcp
  | cons c cs2 ih =>
    intro s fuel hcp hf
    cases fuel with
    | zero => omega
    | succ f =>
      cases s with
      | nil => rfl
      | cons d ds =>
        cases hbe : c == d with
        | false =>
          have hb : ¬ (atomMatches (ReAtom.lit c) d = true) := by
            show ¬ ((c == d) = true)
            rw [hbe]
            exact Bool.noConfusion
          simp only [List.map_cons, reMatchFuel]
          rw [if_neg hb]
        | true =>
          have hcp2 : charPrefix cs2 ds = false := by
            simp only [charPrefix, hbe, Bool.true_and] at hcp
            exact hcp
          have hb : atomMatches (ReAtom.lit c) d = true := hbe
          simp only [List.map_cons, reMatchFuel]
          rw [if_pos hb]
          have hf2 : cs2.length < f := by
            rw [List.length_cons] at hf
            omega
          rw [ih ds f hcp2 hf2]
          rfl

theorem reSubFuel_keep (cs : List Char) (c0 : Char) (hc0 : c0 ∈ cs) :
    ∀ (fuel : Nat) (s : List Char), s.length < fuel →
      s.all (fun c => !(c == c0)) = true →
      reSubFuel fuel (cs.map (fun c => (ReAtom.lit c, ReQuant.one))) s = s := by
  obtain ⟨c1, cs1, hcons⟩ : ∃ c1 cs1, cs = c1 :: cs1 := by
    cases hdl : cs with
    | nil => rw [hdl] at hc0; simp at hc0
    | cons a b => exact ⟨a, b, rfl⟩
  intro fuel
  induction fuel with
  | zero =>
    intro s h _
    omega
  | succ f ihf =>
    intro s hlen hall
    cases s with
    | nil =>
      have hm : reMatchAt (cs.map (fun c => (ReAtom.lit c, ReQuant.one))) [] = none := by
        unfold reMatchAt
        apply reMatchFuel_lits_neg
        · rw [hcons]
          rfl
        · rw [List.length_map]
          omega
      simp only [reSubFuel, hm]
    | cons d ds =>
      have hcp : charPrefix cs (d :: ds) = false := by
        cases hcp2 : charPrefix cs (d :: ds) with
        | false => rfl
        | true =>
          have hmem := charPrefix_mem cs (d :: ds) hcp2 c0 hc0
          rw [List.all_eq_true] at hall
          have hcontra := hall c0 hmem
          simp at hcontra
      have hm : reMatchAt (cs.map (fun c => (ReAtom.lit c, ReQuant.one))) (d :: ds) = none := by
        unfold reMatchAt
        apply reMatchFuel_lits_neg cs (d :: ds) _ hcp
        rw [List.length_map]
        omega
      simp only [reSubFuel, hm]
      rw [List.all_cons, Bool.and_eq_true] at hall
      rw [ihf ds (by rw [List.length_cons] at hlen; omega) hall.2]

theorem reSub_strip_list (dirL rest : List Char) (c0 : Char)
    (hc0 : c0 ∈ dirL) (hnos : rest.all (fun c => !(c == c0)) = true) :
    reSubFuel ((dirL ++ rest).length + 1)
      (dirL.map (fun c => (ReAtom.lit c, ReQuant.one))) (dirL ++ rest) = rest := by
  obtain ⟨c1, cs1, hcons⟩ : ∃ c1 cs1, dirL = c1 :: cs1 := by
    cases hdl : dirL with
    | nil => rw [hdl] at hc0; simp at hc0
    | cons a b => exact ⟨a, b, rfl⟩
  subst hcons
  have hm : reMatchAt ((c1 :: cs1).map (fun c => (ReAtom.lit c, ReQuant.one)))
      ((c1 :: cs1) ++ rest) = some (cs1.length + 1) := by
    unfold reMatchAt
    have h := reMatchFuel_lits_pos (c1 :: cs1) ((c1 :: cs1) ++ rest)
      (((c1 :: cs1).map (fun c => (ReAtom.lit c, ReQuant.one))).length
        + ((c1 :: cs1) ++ rest).length + 1)
      (charPrefix_append (c1 :: cs1) rest)
      (by rw [List.length_map, List.length_append]; omega)
    exact h
  simp only [reSubFuel, hm]
  rw [show ((c1 :: cs1) ++ rest).drop (cs1.length + 1) = rest from List.drop_left cs1 rest]
  exact reSubFuel_keep (c1 :: cs1) c0 hc0 ((c1 :: cs1) ++ rest).length rest
    (by rw [List.length_append, List.length_cons]; omega) hnos

theorem reSubAll_literal_strip (dir last : String)
    (hlit : dir.toList.all (fun c => !(reMeta.contains c)) = true)
    (hpre : charPrefix dir.toList last.toList = true)
    (hslash : '/' ∈ dir.toList)
    (hnos : (last.toList.drop dir.length).all (fun c => !(c == '/')) = true) :
    reSubAll dir last = some (String.mk (last.toList.drop dir.length)) := by
  have hp := reParse_literal dir.toList hlit
  unfold reSubAll
  rw [hp]
  show some (String.mk (reSubFuel (last.toList.length + 1)
    (dir.toList.map (fun c => (ReAtom.lit c, ReQuant.one))) last.toList)) = _
  have hnos2 : (last.toList.drop dir.toList.length).all (fun c => !(c == '/')) = true := hnos
  have hlist : reSubFuel (last.toList.length + 1)
      (dir.toList.map (fun c => (ReAtom.lit c, ReQuant.one))) last.toList =
      last.toList.drop dir.toList.length := by
    have hsplit := charPrefix_drop dir.toList last.toList hpre
    rw [show last.toList.length = (dir.toList ++ last.toList.drop dir.toList.length).length
      from by rw [← hsplit]]
    rw [show (reSubFuel ((dir.toList ++ last.toList.drop dir.toList.length).length + 1)
        (dir.toList.map (fun c => (ReAtom.lit c, ReQuant.one))) last.toList) =
      (reSubFuel ((dir.toList ++ last.toList.drop dir.toList.length).length + 1)
        (dir.toList.map (fun c => (ReAtom.lit c, ReQuant.one)))
        (dir.toList ++ last.toList.drop dir.toList.length)) from by rw [← hsplit]]
    exact reSub_strip_list dir.toList (last.toList.drop dir.toList.length) '/' hslash hnos2
  rw [hlist]
  rfl

end DataOutputs

namespace DataOutputs

/-- C5 (amended): for every file system, prefix and hparam_string free of re
and glob metacharacters -- so that experiment_dir, used by the source as both
a glob pattern and a re.sub pattern, denotes itself -- and with numeric glob
remainders, _make_dir returns a path of the form
prefix + / + hparam_string + / + NN + / where NN is 00 when no digit-named
entry exists under the directory and otherwise the successor of the number of
the last sorted existing entry formatted with at least two digits; the
returned directory is added to the file system when it does not already
exist; and dir_getoutputs is _make_dir applied to outputs/model_name and the
hparam string.  Without the metacharacter restriction the source raises
(see the counterexample). -/
theorem make_dir_spec (fs : List String) (pfx hparam_string d : String)
    (hd : d = pfx ++ "/" ++ hparam_string ++ "/")
    (hre : reLiteralStr d = true)
    (hdigits : ∀ s ∈ glob fs d, (s.toList.drop d.length).all Char.isDigit = true) :
    ∃ nn fs2,
      _make_dir fs pfx hparam_string = some (PyResult.ok (d ++ nn ++ "/", fs2)) ∧
      2 ≤ nn.length ∧
      (glob fs d = [] → nn = "00") ∧
      (∀ last2, (pySorted (glob fs d)).getLast? = some last2 →
        nn = format02 (digitsToNat (last2.toList.drop d.length) + 1)) ∧
      fs2 = (if fs.contains (d ++ nn ++ "/") then fs else fs ++ [d ++ nn ++ "/"]) ∧
      (∀ fmtLr lr hsz ctx eid model_name,
        dir_getoutputs fmtLr fs lr hsz ctx eid model_name =
          _make_dir fs ( "outputs/" ++ model_name)
            (_make_hparam_string fmtLr lr hsz ctx eid)) := by
  subst hd
  have hgl : globLiteral (pfx ++ "/" ++ hparam_string ++ "/") = true :=
    globLiteral_of_reLiteral _ hre
  have hglobq : glob? fs (pfx ++ "/" ++ hparam_string ++ "/") =
      some (glob fs (pfx ++ "/" ++ hparam_string ++ "/")) := by
    unfold glob? glob
    rw [if_pos hgl]
  by_cases hglob : glob fs (pfx ++ "/" ++ hparam_string ++ "/") = []
  · have hnn : nextNN (pySorted (glob fs (pfx ++ "/" ++ hparam_string ++ "/")))
        (pfx ++ "/" ++ hparam_string ++ "/") = some (PyResult.ok "00") := by
      rw [hglob]
      rfl
    have hrun : _make_dir fs pfx hparam_string =
        some (PyResult.ok ((pfx ++ "/" ++ hparam_string ++ "/") ++ "00" ++ "/",
          if fs.contains ((pfx ++ "/" ++ hparam_string ++ "/") ++ "00" ++ "/")
          then fs else fs ++ [(pfx ++ "/" ++ hparam_string ++ "/") ++ "00" ++ "/"])) := by
      simp only [_make_dir, hglobq, hnn]
    refine ⟨ "00", _, hrun, by decide, fun _ => rfl, ?_, rfl, fun _ _ _ _ _ _ => rfl⟩
    intro last2 hl
    rw [hglob] at hl
    exact absurd hl (by simp [pySorted])
  · have hlen : (pySorted (glob fs (pfx ++ "/" ++ hparam_string ++ "/"))).length ≠ 0 := by
      rw [length_pySorted]
      exact fun h0 => hglob (List.length_eq_zero.mp h0)
    have hne : pySorted (glob fs (pfx ++ "/" ++ hparam_string ++ "/")) ≠ [] := by
      intro h0
      rw [h0] at hlen
      exact hlen rfl
    obtain ⟨x, xs, hxs⟩ := List.exists_cons_of_ne_nil hne
    obtain ⟨last, hlast⟩ : ∃ last,
        (pySorted (glob fs (pfx ++ "/" ++ hparam_string ++ "/"))).getLast? = some last := by
      rw [hxs]
      exact ⟨(x :: xs).getLast (by simp), List.getLast?_eq_getLast _ _⟩
    have hmem : last ∈ glob fs (pfx ++ "/" ++ hparam_string ++ "/") :=
      (mem_pySorted last _).mp (List.mem_of_mem_getLast? (Option.mem_def.mpr hlast))
    have hmatch : globMatch (pfx ++ "/" ++ hparam_string ++ "/") last = true :=
      (List.mem_filter.mp hmem).2
    simp only [globMatch, Bool.and_eq_true] at hmatch
    obtain ⟨hpre, hrest⟩ := hmatch
    have hdigAll := hdigits last hmem
    rcases ht : last.toList.drop (pfx ++ "/" ++ hparam_string ++ "/").length
      with _ | ⟨c, cs⟩
    · rw [ht] at hrest
      exact absurd hrest (by simp)
    · rw [ht, Bool.and_eq_true] at hrest
      obtain ⟨hcdig, hcs⟩ := hrest
      have hslash : '/' ∈ (pfx ++ "/" ++ hparam_string ++ "/").toList := by
        show '/' ∈ (pfx ++ "/" ++ hparam_string ++ "/").data
        rw [String.data_append]
        exact List.mem_append_right _ (by decide)
      have hcns : (c == '/') = false := by
        cases hbe : c == '/' with
        | false => rfl
        | true =>
          have hcq : c = '/' := eq_of_beq hbe
          rw [hcq] at hcdig
          exact absurd hcdig (by decide)
      have hnoslash : (last.toList.drop (pfx ++ "/" ++ hparam_string ++ "/").length).all
          (fun z => !(z == '/')) = true := by
        rw [ht, List.all_cons]
        simp [hcns, hcs]
      have hsub := reSubAll_literal_strip (pfx ++ "/" ++ hparam_string ++ "/") last
        (by simpa [reLiteralStr] using hre) hpre hslash hnoslash
      have hcond : isDigitStr (String.mk (last.toList.drop
          (pfx ++ "/" ++ hparam_string ++ "/").length)) = true := by
        show (!(last.toList.drop (pfx ++ "/" ++ hparam_string ++ "/").length).isEmpty &&
          (last.toList.drop (pfx ++ "/" ++ hparam_string ++ "/").length).all
            Char.isDigit) = true
        rw [ht] at hdigAll ⊢
        simp [hdigAll]
      have hint : pyInt? (String.mk (last.toList.drop
            (pfx ++ "/" ++ hparam_string ++ "/").length)) =
          some (digitsToNat (last.toList.drop
            (pfx ++ "/" ++ hparam_string ++ "/").length)) := by
        unfold pyInt?
        rw [if_pos hcond]
        rfl
      have hnn : nextNN (pySorted (glob fs (pfx ++ "/" ++ hparam_string ++ "/")))
          (pfx ++ "/" ++ hparam_string ++ "/") =
          some (PyResult.ok (format02 (digitsToNat (last.toList.drop
            (pfx ++ "/" ++ hparam_string ++ "/").length) + 1))) := by
        unfold nextNN
        rw [if_neg hlen]
        simp only [hlast, hsub, hint]
      have hrun : _make_dir fs pfx hparam_string =
          some (PyResult.ok ((pfx ++ "/" ++ hparam_string ++ "/")
              ++ format02 (digitsToNat (last.toList.drop
                (pfx ++ "/" ++ hparam_string ++ "/").length) + 1) ++ "/",
            if fs.contains ((pfx ++ "/" ++ hparam_string ++ "/")
                ++ format02 (digitsToNat (last.toList.drop
                  (pfx ++ "/" ++ hparam_string ++ "/").length) + 1) ++ "/")
            then fs
            else fs ++ [(pfx ++ "/" ++ hparam_string ++ "/")
                ++ format02 (digitsToNat (last.toList.drop
                  (pfx ++ "/" ++ hparam_string ++ "/").length) + 1) ++ "/"])) := by
        simp only [_make_dir, hglobq, hnn]
      refine ⟨_, _, hrun, format02_length _, fun h0 => absurd h0 hglob, ?_, rfl,
        fun _ _ _ _ _ _ => rfl⟩
      intro last2 hl2
      rw [hlast] at hl2
      injection hl2 with hl2
      rw [hl2]

/-- C5 counterexample: at prefix a+b with an existing entry a+b/h/00 the
Python raises -- glob treats the plus literally and finds the entry, but as a
regex a+b/h/ fails to match anywhere in a+b/h/00, so re.sub leaves the string
unchanged and int() raises ValueError -- whereas the claim asserts a returned
path of the form prefix + / + hparam_string + / + NN + /. -/
theorem make_dir_counterexample :
    _make_dir [ "a+b/h/00" ] "a+b" "h" =
      some (PyResult.raise "ValueError: invalid literal for int() with base 10") ∧
    ¬ ∃ nn fs2, _make_dir [ "a+b/h/00" ] "a+b" "h" =
      some (PyResult.ok ( "a+b" ++ "/" ++ "h" ++ "/" ++ nn ++ "/", fs2)) := by
  refine ⟨by decide, ?_⟩
  rintro ⟨nn, fs2, h⟩
  rw [show _make_dir [ "a+b/h/00" ] "a+b" "h" =
      some (PyResult.raise "ValueError: invalid literal for int() with base 10")
    from by decide] at h
  simp at h

/-- Witness for the amended C5 at a concrete file system holding two numbered
experiment entries and one non-matching entry; the directory is free of re
and glob metacharacters. -/
theorem make_dir_spec_witness :
    ( "outputs/m/h/" = "outputs/m" ++ "/" ++ "h" ++ "/") ∧
    reLiteralStr "outputs/m/h/" = true ∧
    (∀ s ∈ glob [ "outputs/m/h/00", "outputs/m/h/03", "outputs/m/h/readme" ]
        "outputs/m/h/",
      (s.toList.drop "outputs/m/h/".length).all Char.isDigit = true) ∧
    ∃ nn fs2,
      _make_dir [ "outputs/m/h/00", "outputs/m/h/03", "outputs/m/h/readme" ]
          "outputs/m" "h" = some (PyResult.ok ( "outputs/m/h/" ++ nn ++ "/", fs2)) ∧
      2 ≤ nn.length ∧
      (glob [ "outputs/m/h/00", "outputs/m/h/03", "outputs/m/h/readme" ]
          "outputs/m/h/" = [] → nn = "00") ∧
      (∀ last2, (pySorted (glob [ "outputs/m/h/00", "outputs/m/h/03", "outputs/m/h/readme" ]
          "outputs/m/h/")).getLast? = some last2 →
        nn = format02 (digitsToNat (last2.toList.drop "outputs/m/h/".length) + 1)) ∧
      fs2 = (if List.contains [ "outputs/m/h/00", "outputs/m/h/03", "outputs/m/h/readme" ]
            ( "outputs/m/h/" ++ nn ++ "/")
          then [ "outputs/m/h/00", "outputs/m/h/03", "outputs/m/h/readme" ]
          else [ "outputs/m/h/00", "outputs/m/h/03", "outputs/m/h/readme" ]
            ++ [ "outputs/m/h/" ++ nn ++ "/"]) ∧
      (∀ fmtLr lr hsz ctx eid model_name,
        dir_getoutputs fmtLr [ "outputs/m/h/00", "outputs/m/h/03", "outputs/m/h/readme" ]
            lr hsz ctx eid model_name =
          _make_dir [ "outputs/m/h/00", "outputs/m/h/03", "outputs/m/h/readme" ]
            ( "outputs/" ++ model_name)
            (_make_hparam_string fmtLr lr hsz ctx eid)) :=
  ⟨by decide, by decide, by decide,
    make_dir_spec [ "outputs/m/h/00", "outputs/m/h/03", "outputs/m/h/readme" ]
      "outputs/m" "h" "outputs/m/h/" (by decide) (by decide) (by decide)⟩

end DataOutputs
